import Mathlib

/-!
Verification development for the BSS requirements-comparison system.

The Python sources are shallowly embedded as Lean definitions:

* `src/models.py` — `Feature`, `MatchPair`, `ComparisonResult`, and the
  statistics derivation `calculate_statistics`.
* `src/comparison_engine.py` — the greedy one-to-one matcher
  `compare_features` (the inner best-candidate scan is `findBestAux` /
  `findBest`, the outer loop is `compareLoop`), its exception-aware
  counterpart `compare_featuresE` / `compareLoopE` (the debug logging of
  the exact/similar branches dereferences the best match eagerly and can
  raise `AttributeError`), and the cosine similarity
  `calculate_similarity` over real vectors.
* `src/parser.py` — the three extraction strategies and their priority
  chain `extract_features`.
* `src/comparator.py` — `compare_documents` (file reading is modelled by
  passing the text contents of the documents) and `get_best_match`.

External collaborators (the embedding provider and the LLM used for gap
analysis) are modelled as explicit function parameters: the similarity
matrix the engine computes from the embedding vectors is passed as a
function `sim : ℕ → ℕ → ℚ` over item indices, and the gap-analysis call
as `gap : Feature → Option Feature → String`.  Similarity scores and
statistics use exact rational arithmetic; a separate model of the
IEEE-754 binary64 arithmetic of the source (`roundRat53`, `fdiv`,
`fmul`, `fadd`, `statsFloat`) is used where a claim is about bit-level float behaviour.
-/

namespace BssComparison

/-- Embedding of `models.Feature` (src/models.py).  The `category` and
`metadata` fields are never read by the compared code paths and are
omitted; `raw_text` (Optional[str] defaulting to None in the source, but
always set by the parser) is modelled as a `String` defaulting to `""`. -/
structure Feature where
  id : String
  title : String
  description : String
  customer : String
  raw_text : String := ""
deriving DecidableEq

/-- Embedding of `models.MatchPair` (src/models.py).  The Python type
annotation says `existing_feature : Feature`, but
`ComparisonEngine.compare_features` can pass `best_match = None` (its
initial value), so the faithful type is `Option Feature`. -/
structure MatchPair where
  new_feature : Feature
  existing_feature : Option Feature
  similarity_score : ℚ
  match_type : String
  gap_analysis : Option String := none
deriving DecidableEq

/-- Decidable equality for modelled fallible calls, so that concrete
runs (including raising ones) can be checked by evaluation. -/
instance {ε α : Type} [DecidableEq ε] [DecidableEq α] : DecidableEq (Except ε α) :=
  fun a b =>
    match a, b with
    | Except.error x, Except.error y =>
      if h : x = y then isTrue (by rw [h]) else isFalse (fun hc => h (Except.error.inj hc))
    | Except.ok x, Except.ok y =>
      if h : x = y then isTrue (by rw [h]) else isFalse (fun hc => h (Except.ok.inj hc))
    | Except.error _, Except.ok _ => isFalse (fun hc => Except.noConfusion hc)
    | Except.ok _, Except.error _ => isFalse (fun hc => Except.noConfusion hc)

/-- Inner scan of `ComparisonEngine.compare_features`
(src/comparison_engine.py lines 72-90): iterate over the existing
features with running index `j`, skip indices already in
`matched`, and keep the best (`similarity > best_score`, strict)
candidate seen so far.  The accumulator is
`(best_match, best_score, best_index)`, started by the caller at
`(none, 0, -1)` exactly as in the source. -/
def findBestAux (sim : ℕ → ℕ → ℚ) (i : ℕ) (matched : List ℤ) :
    ℕ → List Feature → Option Feature × ℚ × ℤ → Option Feature × ℚ × ℤ
  | _, [], b => b
  | j, f :: rest, b =>
    if (j : ℤ) ∈ matched then
      findBestAux sim i matched (j + 1) rest b
    else if sim i j > b.2.1 then
      findBestAux sim i matched (j + 1) rest (some f, sim i j, (j : ℤ))
    else
      findBestAux sim i matched (j + 1) rest b

/-- The whole inner scan for new feature `i`: best match, best score and
best index against the not-yet-claimed existing features. -/
def findBest (sim : ℕ → ℕ → ℚ) (i : ℕ) (existing : List Feature)
    (matched : List ℤ) : Option Feature × ℚ × ℤ :=
  findBestAux sim i matched 0 existing (none, 0, -1)

/-- Outer loop of `ComparisonEngine.compare_features`
(src/comparison_engine.py lines 71-126), with the logging calls
omitted: process the new features in order (with running index `i`),
classify each by its best score against the thresholds, and on an exact
or similar match add the chosen `best_index` to the claimed set.
Returns `(exact_matches, similar_matches, delta_features)`.  The
omitted `logger.debug` call in the exact/similar branches dereferences
the best match and can raise — `compareLoopE` below includes that
effect; this function computes the value of every completing run
(`compareLoopE_dichotomy` and `compareLoopE_pos` make the relation
precise). -/
def compareLoop (sim : ℕ → ℕ → ℚ) (gap : Feature → Option Feature → String)
    (exactT similarT : ℚ) (existing : List Feature) :
    ℕ → List Feature → List ℤ → List MatchPair × List MatchPair × List Feature
  | _, [], _ => ([], [], [])
  | i, nf :: rest, matched =>
    let b := findBest sim i existing matched
    if b.2.1 ≥ exactT then
      let r := compareLoop sim gap exactT similarT existing (i + 1) rest (b.2.2 :: matched)
      (⟨nf, b.1, b.2.1, "exact", none⟩ :: r.1, r.2.1, r.2.2)
    else if b.2.1 ≥ similarT then
      let r := compareLoop sim gap exactT similarT existing (i + 1) rest (b.2.2 :: matched)
      (r.1, ⟨nf, b.1, b.2.1, "similar", some (gap nf b.1)⟩ :: r.2.1, r.2.2)
    else
      let r := compareLoop sim gap exactT similarT existing (i + 1) rest matched
      (r.1, r.2.1, nf :: r.2.2)

/-- Embedding of `ComparisonEngine.compare_features`
(src/comparison_engine.py), logging omitted — see `compare_featuresE`
for the model including the exception the debug logging can raise.  The
similarity matrix computed from the embedding vectors is abstracted as
`sim`, the LLM gap analysis as `gap`. -/
def compare_features (sim : ℕ → ℕ → ℚ) (gap : Feature → Option Feature → String)
    (exactT similarT : ℚ) (newFeatures existing : List Feature) :
    List MatchPair × List MatchPair × List Feature :=
  compareLoop sim gap exactT similarT existing 0 newFeatures []

/-- Outer loop of `ComparisonEngine.compare_features` including the
debug-logging effect (src/comparison_engine.py lines 92-122): the exact
and similar branches end in a `logger.debug` whose f-string
dereferences `best_match.title`; the f-string is evaluated eagerly
(whatever the logging level), so when `best_match` is still `None` —
reachable when the entered threshold is 0, e.g. with an empty existing
pool — the attribute access raises an uncaught `AttributeError` after
the pair was appended, aborting the whole call and discarding the local
lists.  `Except.error` models that exception; the delta-branch log only
reads the new feature and cannot raise.  (In the similar branch
`_analyze_gap` runs first, but it catches its own exceptions and
returns a fallback string, so it is still just `gap`.) -/
def compareLoopE (sim : ℕ → ℕ → ℚ) (gap : Feature → Option Feature → String)
    (exactT similarT : ℚ) (existing : List Feature) :
    ℕ → List Feature → List ℤ →
      Except String (List MatchPair × List MatchPair × List Feature)
  | _, [], _ => Except.ok ([], [], [])
  | i, nf :: rest, matched =>
    let b := findBest sim i existing matched
    if b.2.1 ≥ exactT then
      match b.1 with
      | none => Except.error ("AttributeError")
      | some fm =>
        match compareLoopE sim gap exactT similarT existing (i + 1) rest
            (b.2.2 :: matched) with
        | Except.error e => Except.error e
        | Except.ok r =>
          Except.ok (⟨nf, some fm, b.2.1, "exact", none⟩ :: r.1, r.2.1, r.2.2)
    else if b.2.1 ≥ similarT then
      match b.1 with
      | none => Except.error ("AttributeError")
      | some fm =>
        match compareLoopE sim gap exactT similarT existing (i + 1) rest
            (b.2.2 :: matched) with
        | Except.error e => Except.error e
        | Except.ok r =>
          Except.ok (r.1, ⟨nf, some fm, b.2.1, "similar", some (gap nf (some fm))⟩ :: r.2.1,
            r.2.2)
    else
      match compareLoopE sim gap exactT similarT existing (i + 1) rest matched with
      | Except.error e => Except.error e
      | Except.ok r => Except.ok (r.1, r.2.1, nf :: r.2.2)

/-- Embedding of `ComparisonEngine.compare_features`
(src/comparison_engine.py) including the debug-logging
`AttributeError`: the call either returns the three output lists or
raises. -/
def compare_featuresE (sim : ℕ → ℕ → ℚ) (gap : Feature → Option Feature → String)
    (exactT similarT : ℚ) (newFeatures existing : List Feature) :
    Except String (List MatchPair × List MatchPair × List Feature) :=
  compareLoopE sim gap exactT similarT existing 0 newFeatures []

/-! ### Parser (src/parser.py) -/

/-- Split a character stream at newline characters: the Python
expression `content.split(backslash-n)` (so `""` gives `[""]`, and a trailing newline
gives a trailing empty line). -/
def splitLinesAux : List Char → List Char → List (List Char)
  | [], acc => [acc.reverse]
  | c :: rest, acc =>
    if c = '\n' then acc.reverse :: splitLinesAux rest []
    else splitLinesAux rest (c :: acc)

/-- The Python expression `content.split(backslash-n)`. -/
def splitLines (content : String) : List String :=
  (splitLinesAux content.data []).map String.mk

/-- The Python expression `line.strip()`: drop leading and trailing whitespace. -/
def pyStrip (s : String) : String :=
  String.mk (((s.data.dropWhile Char.isWhitespace).reverse.dropWhile
    Char.isWhitespace).reverse)

/-- The whitespace-separated words of a character stream: the Python
expression `text.split()` (empty pieces dropped). -/
def wordsAux : List Char → List Char → List (List Char)
  | [], acc => if acc = [] then [] else [acc.reverse]
  | c :: rest, acc =>
    if Char.isWhitespace c then
      if acc = [] then wordsAux rest [] else acc.reverse :: wordsAux rest []
    else wordsAux rest (c :: acc)

/-- Join words with single spaces: the Python join with a one-space separator. -/
def joinSpaceSep : List (List Char) → List Char
  | [] => []
  | [w] => w
  | w :: ws => w ++ ' ' :: joinSpaceSep ws

/-- Embedding of `utils.clean_text` (src/utils.py): the Python
idiom joining `text.split()` with single spaces, i.e. split on whitespace runs, drop empty
pieces, rejoin with single spaces (this also trims both ends). -/
def clean_text (s : String) : String :=
  String.mk (joinSpaceSep (wordsAux s.data []))

/-- The Python test `line.startswith`, applied to the hash character. -/
def startsHash (s : String) : Bool :=
  match s.data with
  | [] => false
  | c :: _ => c = '#'

/-- The anchored regex match of `^(\d+)\.\s+(.+)$` on a line containing no
newline: one or more digits, a literal dot, one or more whitespace
characters, then a nonempty remainder.  Returns the captured
`(number, rest)` on success. -/
def numberedMatch (line : String) : Option (String × String) :=
  let p := line.data.span Char.isDigit
  match p.2 with
  | '.' :: r2 =>
    let q := r2.span Char.isWhitespace
    if p.1 = [] ∨ q.1 = [] ∨ q.2 = [] then none
    else some (String.mk p.1, String.mk q.2)
  | _ => none

/-- The anchored regex match of two-or-three hashes then `\s+(.+)$` on a line containing no
newline: exactly two or three leading `#` characters (four or more
leave a `#` where whitespace is required, so the match fails), one or
more whitespace characters, then a nonempty remainder.  Returns the
captured heading text. -/
def headerMatch (line : String) : Option String :=
  let p := line.data.span (fun c => c = '#')
  let q := p.2.span Char.isWhitespace
  if (p.1.length = 2 ∨ p.1.length = 3) ∧ q.1 ≠ [] ∧ q.2 ≠ [] then
    some (String.mk q.2)
  else none

/-- The anchored regex match of `^[-*]\s+(.+)$` on a line containing no newline. -/
def bulletMatch (line : String) : Option String :=
  match line.data with
  | c :: r1 =>
    if c = '-' ∨ c = '*' then
      let q := r1.span Char.isWhitespace
      if q.1 = [] ∨ q.2 = [] then none else some (String.mk q.2)
    else none
  | [] => none

/-- Final clean-up pass of `_extract_numbered_features` /
`_extract_header_features` (src/parser.py): clean the accumulated
description and raw text, and fall back to the title when the
description is empty. -/
def finalizeFeature (f : Feature) : Feature :=
  let d := clean_text f.description
  { f with
    description := if d = "" then f.title else d
    raw_text := clean_text f.raw_text }

/-- Line loop of `RequirementParser._extract_numbered_features`
(src/parser.py lines 78-117): a numbered line saves the current feature
and starts a new one whose id uses the literal captured number; any
other nonempty line not starting with `#` is appended (space-joined) to
the description and raw text of the current feature; the last open feature
is appended at the end. -/
def numberedLoop (customer : String) : List String → Option Feature → List Feature
  | [], cur =>
    (match cur with
     | some f => [f]
     | none => [])
  | l :: rest, cur =>
    let line := pyStrip l
    match numberedMatch line with
    | some nm =>
      let newF : Feature :=
        { id := customer ++ "_" ++ nm.1
          title := clean_text nm.2
          description := ""
          customer := customer
          raw_text := nm.2 }
      (match cur with
       | some f => [f]
       | none => []) ++ numberedLoop customer rest (some newF)
    | none =>
      match cur with
      | some f =>
        if line ≠ "" ∧ ¬ startsHash line then
          numberedLoop customer rest
            (some { f with
                      description := f.description ++ " " ++ line
                      raw_text := f.raw_text ++ " " ++ line })
        else
          numberedLoop customer rest (some f)
      | none => numberedLoop customer rest none

/-- Embedding of `RequirementParser._extract_numbered_features`. -/
def extractNumberedFeatures (content customer : String) : List Feature :=
  (numberedLoop customer (splitLines content) none).map finalizeFeature

/-- Line loop of `RequirementParser._extract_header_features`
(src/parser.py lines 130-168): a level-2/3 heading line starts a new
feature whose id uses a strictly incrementing counter starting at 1. -/
def headerLoop (customer : String) : List String → Option Feature → ℕ → List Feature
  | [], cur, _ =>
    (match cur with
     | some f => [f]
     | none => [])
  | l :: rest, cur, counter =>
    let line := pyStrip l
    match headerMatch line with
    | some title =>
      let newF : Feature :=
        { id := customer ++ "_" ++ toString (counter + 1)
          title := clean_text title
          description := ""
          customer := customer
          raw_text := title }
      (match cur with
       | some f => [f]
       | none => []) ++ headerLoop customer rest (some newF) (counter + 1)
    | none =>
      match cur with
      | some f =>
        if line ≠ "" ∧ ¬ startsHash line then
          headerLoop customer rest
            (some { f with
                      description := f.description ++ " " ++ line
                      raw_text := f.raw_text ++ " " ++ line }) counter
        else
          headerLoop customer rest (some f) counter
      | none => headerLoop customer rest none counter

/-- Embedding of `RequirementParser._extract_header_features`. -/
def extractHeaderFeatures (content customer : String) : List Feature :=
  (headerLoop customer (splitLines content) none 0).map finalizeFeature

/-- Line loop of `RequirementParser._extract_bullet_features`
(src/parser.py lines 179-206): every bullet line becomes its own
feature, title and description both the captured text. -/
def bulletLoop (customer : String) : List String → ℕ → List Feature
  | [], _ => []
  | l :: rest, counter =>
    match bulletMatch (pyStrip l) with
    | some text =>
      { id := customer ++ "_" ++ toString (counter + 1)
        title := clean_text text
        description := clean_text text
        customer := customer
        raw_text := text } :: bulletLoop customer rest (counter + 1)
    | none => bulletLoop customer rest counter

/-- Embedding of `RequirementParser._extract_bullet_features`. -/
def extractBulletFeatures (content customer : String) : List Feature :=
  bulletLoop customer (splitLines content) 0

/-- Embedding of `RequirementParser.extract_features` (src/parser.py
lines 54-76): numbered lists first, headers only when that yields
nothing, bullets only when both yield nothing. -/
def extract_features (content customer : String) : List Feature :=
  let fs := extractNumberedFeatures content customer
  if fs = [] then
    let fs2 := extractHeaderFeatures content customer
    if fs2 = [] then extractBulletFeatures content customer else fs2
  else fs

/-! ### Statistics and comparison result (src/models.py) -/

/-- The statistics dictionary built by
`ComparisonResult.calculate_statistics` (src/models.py lines 67-83),
with the arithmetic carried out exactly over `ℚ`. -/
structure Statistics where
  total_new_features : ℕ
  total_existing_features : ℕ
  exact_matches_count : ℕ
  similar_matches_count : ℕ
  delta_count : ℕ
  exact_match_percentage : ℚ
  similar_match_percentage : ℚ
  delta_percentage : ℚ
  reusability_score : ℚ
deriving DecidableEq

/-- Embedding of `models.ComparisonResult` (src/models.py).  The
timestamp is metadata, not a statistic, and is omitted; `statistics`
starts as an empty dict, modelled by `none`. -/
structure ComparisonResult where
  new_document : String
  existing_document : String
  new_features_count : ℕ
  existing_features_count : ℕ
  exact_matches : List MatchPair := []
  similar_features : List MatchPair := []
  delta_features : List Feature := []
  statistics : Option Statistics := none
deriving DecidableEq

/-- Embedding of `ComparisonResult.calculate_statistics` (src/models.py
lines 67-83), as the pure function producing the statistics record; the
Python method stores this dict in `self.statistics` and returns it. -/
def calculate_statistics (r : ComparisonResult) : Statistics :=
  let total_new := r.new_features_count
  let matched_count := r.exact_matches.length + r.similar_features.length
  { total_new_features := total_new
    total_existing_features := r.existing_features_count
    exact_matches_count := r.exact_matches.length
    similar_matches_count := r.similar_features.length
    delta_count := r.delta_features.length
    exact_match_percentage :=
      if total_new > 0 then (r.exact_matches.length : ℚ) / total_new * 100 else 0
    similar_match_percentage :=
      if total_new > 0 then (r.similar_features.length : ℚ) / total_new * 100 else 0
    delta_percentage :=
      if total_new > 0 then (r.delta_features.length : ℚ) / total_new * 100 else 0
    reusability_score :=
      if total_new > 0 then (matched_count : ℚ) / total_new * 100 else 0 }

/-! ### IEEE-754 binary64 model of the statistics arithmetic

The Python source computes the percentages with double-precision
floating-point arithmetic.  Every value arising in those expressions is
nonnegative and dyadic, so a binary64 value is represented exactly as
`n / 2^k` by a pair of naturals; `roundRat53` is round-to-nearest,
ties-to-even at 53 significant bits with an unbounded exponent, which
agrees with binary64 on every value that is neither subnormal nor out
of range (all values arising below are ordinary magnitudes, far from
both limits). -/

/-- A nonnegative binary64 value, represented exactly: the rational
`n / 2^k`. -/
structure Dyadic where
  n : ℕ
  k : ℕ
deriving DecidableEq

/-- The exact rational value of a represented binary64 value. -/
def Dyadic.toRat (a : Dyadic) : ℚ := (a.n : ℚ) / 2 ^ a.k

/-- Floor of the base-2 logarithm of `n / d` (`n, d ≥ 1`), by
fuel-bounded doubling of the smaller side; `4000` steps cover every
magnitude reachable in the statements below. -/
def dlog2F : ℕ → ℕ → ℕ → ℤ
  | 0, _, _ => 0
  | fuel + 1, n, d =>
    if n < d then dlog2F fuel (2 * n) d - 1
    else if n < 2 * d then 0
    else dlog2F fuel n (2 * d) + 1

/-- Round the nonnegative rational `n / d` (`d ≥ 1`) to 53 significant
binary digits, nearest, ties-to-even: the binary64 rounding of an exact
intermediate result.  With `e = ⌊log2 (n/d)⌋`, the integer significand
is the nearest-even rounding of `(n/d) * 2^(52-e)`, obtained from the
integer quotient and remainder; the value of the result is that significand
times `2^(e-52)`. -/
def roundRat53 (n d : ℕ) : Dyadic :=
  if n = 0 then ⟨0, 0⟩
  else
    let e := dlog2F 4000 n d
    let N := if 0 ≤ (52 : ℤ) - e then n * 2 ^ ((52 - e).toNat) else n
    let D := if 0 ≤ (52 : ℤ) - e then d else d * 2 ^ ((e - 52).toNat)
    let q := N / D
    let r := N % D
    let m := if 2 * r < D then q else if D < 2 * r then q + 1 else q + q % 2
    if 0 ≤ (52 : ℤ) - e then ⟨m, (52 - e).toNat⟩ else ⟨m * 2 ^ ((e - 52).toNat), 0⟩

/-- Correctly rounded binary64 division (Python `/` on exactly
representable nonnegative operands). -/
def fdiv (a b : Dyadic) : Dyadic := roundRat53 (a.n * 2 ^ b.k) (b.n * 2 ^ a.k)

/-- Correctly rounded binary64 multiplication. -/
def fmul (a b : Dyadic) : Dyadic := roundRat53 (a.n * b.n) (2 ^ (a.k + b.k))

/-- Correctly rounded binary64 addition. -/
def fadd (a b : Dyadic) : Dyadic :=
  roundRat53 (a.n * 2 ^ b.k + b.n * 2 ^ a.k) (2 ^ (a.k + b.k))

/-- A (small) integer count as a binary64 value, exactly. -/
def natF (x : ℕ) : Dyadic := ⟨x, 0⟩

/-- The three percentage expressions of
`ComparisonResult.calculate_statistics` (src/models.py lines 78-81)
with the arithmetic performed in binary64, as the Python interpreter
does: `(exact_match_percentage, similar_match_percentage,
reusability_score)` for the given exact/similar counts and new-feature
total (the counts are integers, hence exactly representable, and
`matched_count` is an exact integer sum; the left-to-right evaluation
`count / total_new * 100` is one rounded division followed by one
rounded multiplication). -/
def statsFloat (exactCount similarCount totalNew : ℕ) : Dyadic × Dyadic × Dyadic :=
  (if totalNew > 0 then fmul (fdiv (natF exactCount) (natF totalNew)) (natF 100) else ⟨0, 0⟩,
   if totalNew > 0 then fmul (fdiv (natF similarCount) (natF totalNew)) (natF 100) else ⟨0, 0⟩,
   if totalNew > 0 then
     fmul (fdiv (natF (exactCount + similarCount)) (natF totalNew)) (natF 100)
   else ⟨0, 0⟩)

/-! ### Comparator (src/comparator.py) -/

/-- Embedding of `FeatureComparator.compare_documents` (src/comparator.py
lines 26-89).  File reading is modelled by passing the text of each
document and a display name; the similarity matrix and gap analysis are
passed through to the engine as in `compare_features`.  A raised
exception is modelled as `Except.error`: the two `ValueError` guards
for empty extraction fire before any matching, and an engine exception
(see `compareLoopE`) propagates uncaught through this method. -/
def compare_documents (sim : ℕ → ℕ → ℚ) (gap : Feature → Option Feature → String)
    (exactT similarT : ℚ) (newDocName existingDocName : String)
    (newContent existingContent : String) (newCustomer existingCustomer : String) :
    Except String ComparisonResult :=
  let newFeatures := extract_features newContent newCustomer
  let existingFeatures := extract_features existingContent existingCustomer
  if newFeatures = [] then
    Except.error ("No features extracted from " ++ newDocName)
  else if existingFeatures = [] then
    Except.error ("No features extracted from " ++ existingDocName)
  else
    match compare_featuresE sim gap exactT similarT newFeatures existingFeatures with
    | Except.error e => Except.error e
    | Except.ok r =>
      let result : ComparisonResult :=
        { new_document := newDocName
          existing_document := existingDocName
          new_features_count := newFeatures.length
          existing_features_count := existingFeatures.length
          exact_matches := r.1
          similar_features := r.2.1
          delta_features := r.2.2
          statistics := none }
      Except.ok { result with statistics := some (calculate_statistics result) }

/-- The statistics lookup of `reusability_score` with default 0: the key used by
`FeatureComparator.get_best_match`. -/
def reuseKey (r : ComparisonResult) : ℚ :=
  (r.statistics.map Statistics.reusability_score).getD 0

/-- Iteration of the Python builtin max with a key function: keep the
current maximum, replacing it only when the key of a later element is
strictly greater — so the first of several maxima wins. -/
def maxByKeyLoop (best : ComparisonResult) : List ComparisonResult → ComparisonResult
  | [] => best
  | r :: rest => maxByKeyLoop (if reuseKey r > reuseKey best then r else best) rest

/-- Embedding of `FeatureComparator.get_best_match` (src/comparator.py
lines 123-141): `None` on an empty result list, otherwise the result
with the maximum `reusability_score` under Python `max` semantics. -/
def get_best_match : List ComparisonResult → Option ComparisonResult
  | [] => none
  | r :: rest => some (maxByKeyLoop r rest)

/-! ### Cosine similarity (src/comparison_engine.py lines 144-164)

The embedding vectors are real vectors; `numpy` float arithmetic is
modelled by exact real arithmetic here (the claims about this function
are algebraic: symmetry, self-similarity, zero-norm degeneracy). -/

/-- Embedding of `np.dot` on same-length vectors. -/
def dotProduct (a b : List ℝ) : ℝ := (List.zipWith (fun x y => x * y) a b).sum

/-- Embedding of `np.linalg.norm`: the Euclidean norm. -/
noncomputable def vecNorm (a : List ℝ) : ℝ := Real.sqrt (dotProduct a a)

open Classical in
/-- Embedding of `ComparisonEngine._calculate_similarity`
(src/comparison_engine.py lines 144-164): cosine similarity rescaled
from `[-1, 1]` to `[0, 1]`, with result `0` (no exception) when either
norm is zero. -/
noncomputable def calculate_similarity (emb1 emb2 : List ℝ) : ℝ :=
  if vecNorm emb1 = 0 ∨ vecNorm emb2 = 0 then 0
  else (dotProduct emb1 emb2 / (vecNorm emb1 * vecNorm emb2) + 1) / 2

/-! ### Concrete fixtures used by counterexamples and witnesses -/

/-- A new feature, as the parser would produce it. -/
def featNew1 : Feature :=
  { id := "newdoc_1", title := "Call forwarding"
    description := "Lets users forward calls.", customer := "newdoc"
    raw_text := "Call forwarding Lets users forward calls." }

/-- A second new feature. -/
def featNew2 : Feature :=
  { id := "newdoc_2", title := "Voicemail transcription"
    description := "Converts voicemail to text.", customer := "newdoc"
    raw_text := "Voicemail transcription Converts voicemail to text." }

/-- An existing-catalog feature. -/
def featEx1 : Feature :=
  { id := "olddoc_1", title := "Call forwarding"
    description := "Forward incoming calls to another number.", customer := "olddoc"
    raw_text := "Call forwarding Forward incoming calls to another number." }

/-- A second existing-catalog feature. -/
def featEx2 : Feature :=
  { id := "olddoc_2", title := "Call barring"
    description := "Block selected numbers.", customer := "olddoc"
    raw_text := "Call barring Block selected numbers." }

/-- A similarity matrix with a tie: new item 0 scores 1/2 against both
existing items. -/
def simTie : ℕ → ℕ → ℚ := fun _ _ => 1 / 2

/-- A comparison result carrying only a reusability score, for the
best-match scenario. -/
def resultWithScore (name : String) (score : ℚ) : ComparisonResult :=
  { new_document := name, existing_document := name
    new_features_count := 0, existing_features_count := 0
    statistics := some
      { total_new_features := 0, total_existing_features := 0
        exact_matches_count := 0, similar_matches_count := 0, delta_count := 0
        exact_match_percentage := 0, similar_match_percentage := 0
        delta_percentage := 0, reusability_score := score } }

/-- Batch result for source A of the best-match scenario. -/
def resultA : ComparisonResult := resultWithScore ("A") 40

/-- Batch result for source B of the best-match scenario. -/
def resultB : ComparisonResult := resultWithScore ("B") 85

/-- Batch result for source C of the best-match scenario. -/
def resultC : ComparisonResult := resultWithScore ("C") 60

/-- The existing features (carrying their running index `j`) whose index
is not in the claimed set: the pool `compare_features` still scans.
This is specification vocabulary for the claimed-at-most-once
invariant, not source code. -/
def availAux (matched : List ℤ) : ℕ → List Feature → List Feature
  | _, [] => []
  | j, f :: rest =>
    if (j : ℤ) ∈ matched then availAux matched (j + 1) rest
    else f :: availAux matched (j + 1) rest

/-! ## Theorems -/

/-- Unfolding equation for one step of the inner scan. -/
theorem findBestAux_cons (sim : ℕ → ℕ → ℚ) (i : ℕ) (matched : List ℤ)
    (j0 : ℕ) (f : Feature) (rest : List Feature) (b : Option Feature × ℚ × ℤ) :
    findBestAux sim i matched j0 (f :: rest) b =
      if (j0 : ℤ) ∈ matched then findBestAux sim i matched (j0 + 1) rest b
      else if sim i j0 > b.2.1 then
        findBestAux sim i matched (j0 + 1) rest (some f, sim i j0, (j0 : ℤ))
      else findBestAux sim i matched (j0 + 1) rest b := rfl

/-- Unfolding equation for one step of the outer loop. -/
theorem compareLoop_cons (sim : ℕ → ℕ → ℚ) (gap : Feature → Option Feature → String)
    (exactT similarT : ℚ) (existing : List Feature) (i : ℕ) (nf : Feature)
    (rest : List Feature) (matched : List ℤ) :
    compareLoop sim gap exactT similarT existing i (nf :: rest) matched =
      if (findBest sim i existing matched).2.1 ≥ exactT then
        ((⟨nf, (findBest sim i existing matched).1, (findBest sim i existing matched).2.1,
            "exact", none⟩ ::
           (compareLoop sim gap exactT similarT existing (i + 1) rest
             ((findBest sim i existing matched).2.2 :: matched)).1),
         (compareLoop sim gap exactT similarT existing (i + 1) rest
           ((findBest sim i existing matched).2.2 :: matched)).2.1,
         (compareLoop sim gap exactT similarT existing (i + 1) rest
           ((findBest sim i existing matched).2.2 :: matched)).2.2)
      else if (findBest sim i existing matched).2.1 ≥ similarT then
        ((compareLoop sim gap exactT similarT existing (i + 1) rest
           ((findBest sim i existing matched).2.2 :: matched)).1,
         (⟨nf, (findBest sim i existing matched).1, (findBest sim i existing matched).2.1,
            "similar", some (gap nf (findBest sim i existing matched).1)⟩ ::
           (compareLoop sim gap exactT similarT existing (i + 1) rest
             ((findBest sim i existing matched).2.2 :: matched)).2.1),
         (compareLoop sim gap exactT similarT existing (i + 1) rest
           ((findBest sim i existing matched).2.2 :: matched)).2.2)
      else
        ((compareLoop sim gap exactT similarT existing (i + 1) rest matched).1,
         (compareLoop sim gap exactT similarT existing (i + 1) rest matched).2.1,
         nf :: (compareLoop sim gap exactT similarT existing (i + 1) rest matched).2.2) := rfl

/-- Unfolding equation for one step of the outer loop with the
debug-logging effect. -/
theorem compareLoopE_cons (sim : ℕ → ℕ → ℚ) (gap : Feature → Option Feature → String)
    (exactT similarT : ℚ) (existing : List Feature) (i : ℕ) (nf : Feature)
    (rest : List Feature) (matched : List ℤ) :
    compareLoopE sim gap exactT similarT existing i (nf :: rest) matched =
      if (findBest sim i existing matched).2.1 ≥ exactT then
        match (findBest sim i existing matched).1 with
        | none => Except.error ("AttributeError")
        | some fm =>
          match compareLoopE sim gap exactT similarT existing (i + 1) rest
              ((findBest sim i existing matched).2.2 :: matched) with
          | Except.error e => Except.error e
          | Except.ok r =>
            Except.ok (⟨nf, some fm, (findBest sim i existing matched).2.1, "exact", none⟩ ::
              r.1, r.2.1, r.2.2)
      else if (findBest sim i existing matched).2.1 ≥ similarT then
        match (findBest sim i existing matched).1 with
        | none => Except.error ("AttributeError")
        | some fm =>
          match compareLoopE sim gap exactT similarT existing (i + 1) rest
              ((findBest sim i existing matched).2.2 :: matched) with
          | Except.error e => Except.error e
          | Except.ok r =>
            Except.ok (r.1,
              ⟨nf, some fm, (findBest sim i existing matched).2.1, "similar",
                some (gap nf (some fm))⟩ :: r.2.1, r.2.2)
      else
        match compareLoopE sim gap exactT similarT existing (i + 1) rest matched with
        | Except.error e => Except.error e
        | Except.ok r => Except.ok (r.1, r.2.1, nf :: r.2.2) := rfl

/-- Every new feature lands in exactly one output list, as a permutation
statement about the outer loop. -/
theorem compareLoop_perm (sim : ℕ → ℕ → ℚ) (gap : Feature → Option Feature → String)
    (exactT similarT : ℚ) (existing : List Feature) :
    ∀ (rest : List Feature) (i : ℕ) (matched : List ℤ),
      ((compareLoop sim gap exactT similarT existing i rest matched).1.map
          MatchPair.new_feature ++
        (compareLoop sim gap exactT similarT existing i rest matched).2.1.map
          MatchPair.new_feature ++
        (compareLoop sim gap exactT similarT existing i rest matched).2.2).Perm rest := by
  intro rest
  induction rest with
  | nil => intro i matched; simp [compareLoop]
  | cons nf rest ih =>
    intro i matched
    rw [compareLoop_cons]
    by_cases h1 : (findBest sim i existing matched).2.1 ≥ exactT
    · rw [if_pos h1]
      simpa using (ih (i + 1) ((findBest sim i existing matched).2.2 :: matched)).cons nf
    · rw [if_neg h1]
      by_cases h2 : (findBest sim i existing matched).2.1 ≥ similarT
      · rw [if_pos h2]
        have h := ih (i + 1) ((findBest sim i existing matched).2.2 :: matched)
        refine List.Perm.trans ?_ (h.cons nf)
        simpa using
          (@List.perm_middle _ nf
            ((compareLoop sim gap exactT similarT existing (i + 1) rest
              ((findBest sim i existing matched).2.2 :: matched)).1.map
                MatchPair.new_feature)
            ((compareLoop sim gap exactT similarT existing (i + 1) rest
              ((findBest sim i existing matched).2.2 :: matched)).2.1.map
                MatchPair.new_feature ++
             (compareLoop sim gap exactT similarT existing (i + 1) rest
              ((findBest sim i existing matched).2.2 :: matched)).2.2))
      · rw [if_neg h2]
        have h := ih (i + 1) matched
        refine List.Perm.trans ?_ (h.cons nf)
        exact @List.perm_middle _ nf
          ((compareLoop sim gap exactT similarT existing (i + 1) rest matched).1.map
              MatchPair.new_feature ++
            (compareLoop sim gap exactT similarT existing (i + 1) rest matched).2.1.map
              MatchPair.new_feature)
          ((compareLoop sim gap exactT similarT existing (i + 1) rest matched).2.2)

/-- The three outputs of the outer loop preserve the input order of the
new features. -/
theorem compareLoop_sublist (sim : ℕ → ℕ → ℚ) (gap : Feature → Option Feature → String)
    (exactT similarT : ℚ) (existing : List Feature) :
    ∀ (rest : List Feature) (i : ℕ) (matched : List ℤ),
      ((compareLoop sim gap exactT similarT existing i rest matched).1.map
          MatchPair.new_feature).Sublist rest ∧
      ((compareLoop sim gap exactT similarT existing i rest matched).2.1.map
          MatchPair.new_feature).Sublist rest ∧
      ((compareLoop sim gap exactT similarT existing i rest matched).2.2).Sublist rest := by
  intro rest
  induction rest with
  | nil => intro i matched; simp [compareLoop]
  | cons nf rest ih =>
    intro i matched
    rw [compareLoop_cons]
    by_cases h1 : (findBest sim i existing matched).2.1 ≥ exactT
    · rw [if_pos h1]
      obtain ⟨ha, hb, hc⟩ := ih (i + 1) ((findBest sim i existing matched).2.2 :: matched)
      exact ⟨by simpa using ha.cons₂ nf, hb.cons nf, hc.cons nf⟩
    · rw [if_neg h1]
      by_cases h2 : (findBest sim i existing matched).2.1 ≥ similarT
      · rw [if_pos h2]
        obtain ⟨ha, hb, hc⟩ := ih (i + 1) ((findBest sim i existing matched).2.2 :: matched)
        exact ⟨ha.cons nf, by simpa using hb.cons₂ nf, hc.cons nf⟩
      · rw [if_neg h2]
        obtain ⟨ha, hb, hc⟩ := ih (i + 1) matched
        exact ⟨ha.cons nf, hb.cons nf, hc.cons₂ nf⟩

/-- Claim C10: `compare_features` preserves input order in all three
outputs — the new items of the exact pairs, the new items of the
similar pairs, and the delta items are each (order-preserving)
sublists of the new-item input. -/
theorem claim_c10_order_preserved (sim : ℕ → ℕ → ℚ)
    (gap : Feature → Option Feature → String) (exactT similarT : ℚ)
    (newFeatures existing : List Feature) :
    ((compare_features sim gap exactT similarT newFeatures existing).1.map
        MatchPair.new_feature).Sublist newFeatures ∧
    ((compare_features sim gap exactT similarT newFeatures existing).2.1.map
        MatchPair.new_feature).Sublist newFeatures ∧
    ((compare_features sim gap exactT similarT newFeatures existing).2.2).Sublist
      newFeatures :=
  compareLoop_sublist sim gap exactT similarT existing newFeatures 0 []

/-- Two represented binary64 values are equal as rationals exactly when
their cross-multiplied integer numerators agree. -/
theorem Dyadic.toRat_eq_iff (a b : Dyadic) :
    a.toRat = b.toRat ↔ a.n * 2 ^ b.k = b.n * 2 ^ a.k := by
  unfold Dyadic.toRat
  rw [div_eq_div_iff (by positivity) (by positivity)]
  constructor
  · intro h; exact_mod_cast h
  · intro h; exact_mod_cast h

/-- Claim C6, counterexample to the claim as stated: the source computes
the percentages in binary64 floating point, and with 1 exact match, 2
similar matches and 3 new features the computed `reusability_score` is
exactly `100.0` while `exact_match_percentage + similar_match_percentage`
is one unit in the last place below it — the two are not bit-identical. -/
theorem claim_c6_counterexample :
    (statsFloat 1 2 3).2.2.toRat ≠
      (fadd (statsFloat 1 2 3).1 (statsFloat 1 2 3).2.1).toRat := by
  rw [ne_eq, Dyadic.toRat_eq_iff]
  decide

/-- Claim C6 as amended: over exact (real/rational) arithmetic the
identity does hold for every comparison result — `reusability_score`
equals `exact_match_percentage + similar_match_percentage`; under the
IEEE-754 binary64 arithmetic of the source the equality is only approximate
(it can be off by one unit in the last place, as the counterexample
shows). -/
theorem claim_c6_reusability_sum (r : ComparisonResult) :
    (calculate_statistics r).reusability_score =
      (calculate_statistics r).exact_match_percentage +
        (calculate_statistics r).similar_match_percentage := by
  simp only [calculate_statistics]
  by_cases h : r.new_features_count > 0
  · simp only [if_pos h]
    push_cast
    ring
  · simp [if_neg h]

/-- Claim C8: if extraction yields zero items from either required
source, `compare_documents` fails with an error surfaced to the caller —
no comparison result is produced. -/
theorem claim_c8_empty_extraction (sim : ℕ → ℕ → ℚ)
    (gap : Feature → Option Feature → String) (exactT similarT : ℚ)
    (newDocName existingDocName newContent existingContent newCustomer
      existingCustomer : String)
    (h : extract_features newContent newCustomer = [] ∨
      extract_features existingContent existingCustomer = []) :
    ∃ msg, compare_documents sim gap exactT similarT newDocName existingDocName
      newContent existingContent newCustomer existingCustomer = Except.error msg := by
  simp only [compare_documents]
  rcases h with h | h
  · exact ⟨_, by rw [if_pos h]⟩
  · by_cases h2 : extract_features newContent newCustomer = []
    · exact ⟨_, by rw [if_pos h2]⟩
    · exact ⟨_, by rw [if_neg h2, if_pos h]⟩

/-- Witness for claim C8: an empty new-requirements document (no strategy
extracts anything from it) makes the comparison invocation fail. -/
theorem claim_c8_empty_extraction_witness :
    (extract_features ("") ("newdoc") = [] ∨
      extract_features ("1. Call forwarding") ("olddoc") = []) ∧
    ∃ msg, compare_documents simTie (fun _ _ => "") (95 / 100) (7 / 10)
      ("new.md") ("old.md") ("") ("1. Call forwarding") ("newdoc") ("olddoc") =
      Except.error msg :=
  ⟨Or.inl (by decide),
   claim_c8_empty_extraction simTie (fun _ _ => "") (95 / 100) (7 / 10)
     ("new.md") ("old.md") ("") ("1. Call forwarding") ("newdoc") ("olddoc")
     (Or.inl (by decide))⟩

/-- The Python `max(results, key=...)` iteration: the final value
dominates every scanned element and the initial value, and it is either
the initial value itself or a strict improvement found at a position all
of whose predecessors are strictly below it. -/
theorem maxByKeyLoop_spec :
    ∀ (rest : List ComparisonResult) (b : ComparisonResult),
      (∀ r ∈ rest, reuseKey r ≤ reuseKey (maxByKeyLoop b rest)) ∧
      reuseKey b ≤ reuseKey (maxByKeyLoop b rest) ∧
      (maxByKeyLoop b rest = b ∨
        ∃ l1 l2, rest = l1 ++ maxByKeyLoop b rest :: l2 ∧
          reuseKey b < reuseKey (maxByKeyLoop b rest) ∧
          ∀ r ∈ l1, reuseKey r < reuseKey (maxByKeyLoop b rest)) := by
  intro rest
  induction rest with
  | nil => intro b; exact ⟨by simp, le_refl _, Or.inl rfl⟩
  | cons a t ih =>
    intro b
    by_cases hgt : reuseKey a > reuseKey b
    · have hstep : maxByKeyLoop b (a :: t) = maxByKeyLoop a t := by
        simp [maxByKeyLoop, if_pos hgt]
      obtain ⟨hall, hb, hcase⟩ := ih a
      rw [hstep]
      refine ⟨?_, le_of_lt (lt_of_lt_of_le hgt hb), ?_⟩
      · intro r hr
        rcases List.mem_cons.mp hr with hr | hr
        · exact hr ▸ hb
        · exact hall r hr
      · rcases hcase with he | ⟨l1, l2, heq, hlt, hstrict⟩
        · exact Or.inr ⟨[], t, by simp [he], by rw [he]; exact hgt, by simp⟩
        · exact Or.inr ⟨a :: l1, l2,
            by rw [List.cons_append]; exact congrArg (a :: ·) heq,
            lt_of_lt_of_le hgt hb,
            fun r hr => (List.mem_cons.mp hr).elim (fun h => h ▸ hlt) (hstrict r)⟩
    · have hstep : maxByKeyLoop b (a :: t) = maxByKeyLoop b t := by
        simp [maxByKeyLoop, if_neg hgt]
      obtain ⟨hall, hb, hcase⟩ := ih b
      rw [hstep]
      have ha : reuseKey a ≤ reuseKey b := le_of_not_lt hgt
      refine ⟨?_, hb, ?_⟩
      · intro r hr
        rcases List.mem_cons.mp hr with hr | hr
        · exact hr ▸ le_trans ha hb
        · exact hall r hr
      · rcases hcase with he | ⟨l1, l2, heq, hlt, hstrict⟩
        · exact Or.inl he
        · exact Or.inr ⟨a :: l1, l2,
            by rw [List.cons_append]; exact congrArg (a :: ·) heq,
            hlt,
            fun r hr => (List.mem_cons.mp hr).elim
              (fun h => h ▸ lt_of_le_of_lt ha hlt) (hstrict r)⟩

/-- Claim C9: `get_best_match` on a nonempty result collection returns
the element with the maximum `reusability_score`, and on ties the first
maximum in iteration order wins — every element of the collection keys
at most the selected one, and everything strictly before the selected
position keys strictly below it.  (The iteration order is the order of
the result list; the source is single-threaded, so this is independent
of any notion of completion order.) -/
theorem claim_c9_best_match (results : List ComparisonResult)
    (h : results ≠ []) :
    ∃ best l1 l2, results = l1 ++ best :: l2 ∧
      get_best_match results = some best ∧
      (∀ r ∈ results, reuseKey r ≤ reuseKey best) ∧
      (∀ r ∈ l1, reuseKey r < reuseKey best) := by
  match results with
  | [] => exact absurd rfl h
  | r0 :: rest =>
    obtain ⟨hall, hb, hcase⟩ := maxByKeyLoop_spec rest r0
    refine ⟨maxByKeyLoop r0 rest, ?_⟩
    rcases hcase with he | ⟨l1, l2, heq, hlt, hstrict⟩
    · refine ⟨[], rest, by simp [he], rfl, ?_, by simp⟩
      intro r hr
      rcases List.mem_cons.mp hr with hr | hr
      · exact hr ▸ hb
      · exact hall r hr
    · refine ⟨r0 :: l1, l2,
        by rw [List.cons_append]; exact congrArg (r0 :: ·) heq, rfl, ?_, ?_⟩
      · intro r hr
        rcases List.mem_cons.mp hr with hr | hr
        · exact hr ▸ hb
        · exact hall r hr
      · intro r hr
        rcases List.mem_cons.mp hr with hr | hr
        · exact hr ▸ hlt
        · exact hstrict r hr

/-- Witness for claim C9, the batch scenario: sources A, B, C with
reusability scores 40, 85, 60 — the selected best match exists and
dominates all three. -/
theorem claim_c9_best_match_witness :
    ∃ best l1 l2, [resultA, resultB, resultC] = l1 ++ best :: l2 ∧
      get_best_match [resultA, resultB, resultC] = some best ∧
      (∀ r ∈ [resultA, resultB, resultC], reuseKey r ≤ reuseKey best) ∧
      (∀ r ∈ l1, reuseKey r < reuseKey best) :=
  claim_c9_best_match [resultA, resultB, resultC] (by simp)

/-- The dot product is symmetric. -/
theorem dotProduct_comm (a b : List ℝ) : dotProduct a b = dotProduct b a := by
  unfold dotProduct
  congr 1
  induction a generalizing b with
  | nil => cases b <;> simp
  | cons x xs ih =>
    cases b with
    | nil => simp
    | cons y ys => simp [ih, mul_comm]

/-- The dot product of a vector with itself is nonnegative. -/
theorem dotProduct_self_nonneg (a : List ℝ) : 0 ≤ dotProduct a a := by
  unfold dotProduct
  induction a with
  | nil => simp
  | cons x xs ih => simpa using add_nonneg (mul_self_nonneg x) ih

/-- Claim C5: `_calculate_similarity` is symmetric; a vector of nonzero
norm compared with itself yields exactly 1 (the floating tolerance of
the claim is not needed over exact real arithmetic); and a zero norm on
either side yields 0, with no exception (the function is total). -/
theorem claim_c5_similarity (a b : List ℝ) :
    calculate_similarity a b = calculate_similarity b a ∧
    (vecNorm a ≠ 0 → calculate_similarity a a = 1) ∧
    ((vecNorm a = 0 ∨ vecNorm b = 0) → calculate_similarity a b = 0) := by
  refine ⟨?_, ?_, ?_⟩
  · unfold calculate_similarity
    by_cases h : vecNorm a = 0 ∨ vecNorm b = 0
    · rw [if_pos h, if_pos h.symm]
    · rw [if_neg h, if_neg (fun hc => h hc.symm)]
      rw [dotProduct_comm, mul_comm]
  · intro h
    unfold calculate_similarity
    rw [if_neg (by tauto)]
    have hd : dotProduct a a ≠ 0 := by
      intro hd
      exact h (by unfold vecNorm; rw [hd, Real.sqrt_zero])
    unfold vecNorm
    rw [Real.mul_self_sqrt (dotProduct_self_nonneg a), div_self hd]
    norm_num
  · intro h
    unfold calculate_similarity
    rw [if_pos h]

/-- Witness for claim C5 at the one-dimensional vector `[1]`, whose norm
is 1. -/
theorem claim_c5_similarity_witness :
    vecNorm [(1 : ℝ)] ≠ 0 ∧ calculate_similarity [(1 : ℝ)] [(1 : ℝ)] = 1 := by
  have h : vecNorm [(1 : ℝ)] ≠ 0 := by
    unfold vecNorm dotProduct
    simp
  exact ⟨h, (claim_c5_similarity [(1 : ℝ)] [(1 : ℝ)]).2.1 h⟩

/-- Once the numbered-list scan has an open feature, its output is
nonempty (the open feature is eventually appended). -/
theorem numberedLoop_some_ne_nil (customer : String) :
    ∀ (lines : List String) (f : Feature),
      numberedLoop customer lines (some f) ≠ [] := by
  intro lines
  induction lines with
  | nil => intro f; simp [numberedLoop]
  | cons l rest ih =>
    intro f
    simp only [numberedLoop]
    cases hm : numberedMatch (pyStrip l) with
    | some nm => simp
    | none =>
      by_cases hc : pyStrip l ≠ "" ∧ ¬ startsHash (pyStrip l)
      · rw [if_pos hc]; exact ih _
      · rw [if_neg hc]; exact ih f

/-- If some line matches the numbered-item pattern, the numbered-list
scan extracts at least one feature. -/
theorem numberedLoop_match_ne_nil (customer : String) :
    ∀ (lines : List String),
      (∃ l ∈ lines, (numberedMatch (pyStrip l)).isSome) →
      numberedLoop customer lines none ≠ [] := by
  intro lines
  induction lines with
  | nil => intro h; simp at h
  | cons l rest ih =>
    intro h
    simp only [numberedLoop]
    cases hm : numberedMatch (pyStrip l) with
    | some nm => simpa using numberedLoop_some_ne_nil customer rest _
    | none =>
      apply ih
      rcases h with ⟨l2, hl2, hsome⟩
      rcases List.mem_cons.mp hl2 with rfl | hl2
      · rw [hm] at hsome; simp at hsome
      · exact ⟨l2, hl2, hsome⟩

/-- Claim C7: extraction tries the three strategies in strict priority
order and the first that yields at least one item wins — the heading
strategy output is used only if the numbered-list strategy yields
nothing, the bullet strategy only if both yield nothing; and whenever
the text contains any line matching the numbered-item pattern (in
particular any text containing both numbered-list lines and heading
lines), the output is exactly that of the numbered-list strategy. -/
theorem claim_c7_strategy_priority (content customer : String) :
    (extractNumberedFeatures content customer ≠ [] →
      extract_features content customer = extractNumberedFeatures content customer) ∧
    (extractNumberedFeatures content customer = [] →
      extractHeaderFeatures content customer ≠ [] →
      extract_features content customer = extractHeaderFeatures content customer) ∧
    (extractNumberedFeatures content customer = [] →
      extractHeaderFeatures content customer = [] →
      extract_features content customer = extractBulletFeatures content customer) ∧
    ((∃ l ∈ splitLines content, (numberedMatch (pyStrip l)).isSome) →
      extract_features content customer = extractNumberedFeatures content customer) := by
  refine ⟨?_, ?_, ?_, ?_⟩
  · intro h; simp [extract_features, h]
  · intro h1 h2; simp [extract_features, h1, h2]
  · intro h1 h2; simp [extract_features, h1, h2]
  · intro h
    have hne : extractNumberedFeatures content customer ≠ [] := by
      unfold extractNumberedFeatures
      simp only [ne_eq, List.map_eq_nil]
      exact numberedLoop_match_ne_nil customer (splitLines content) h
    simp [extract_features, hne]

/-- Witness for claim C7 on a text containing both a numbered-list line
and a heading line: the result is that of the numbered-list strategy. -/
theorem claim_c7_strategy_priority_witness :
    (∃ l ∈ splitLines ("1. Foo bar\n## Heading\nBody text"),
      (numberedMatch (pyStrip l)).isSome) ∧
    extract_features ("1. Foo bar\n## Heading\nBody text") ("cust") =
      extractNumberedFeatures ("1. Foo bar\n## Heading\nBody text") ("cust") :=
  ⟨by decide,
   (claim_c7_strategy_priority ("1. Foo bar\n## Heading\nBody text") ("cust")).2.2.2
     (by decide)⟩

/-- Full characterisation of the inner scan `findBestAux`, for a scan of
`fs` starting at running index `j0` with accumulator `b`: the best
score never decreases; it dominates the score of every unclaimed
scanned position; and the final accumulator is either the initial one
(no update happened) or records an unclaimed position whose score
strictly exceeds the initial score and strictly exceeds every unclaimed
position before it (strict `>` updates: the first position achieving
the final score wins). -/
theorem findBestAux_spec (sim : ℕ → ℕ → ℚ) (i : ℕ) (matched : List ℤ) :
    ∀ (fs : List Feature) (j0 : ℕ) (b : Option Feature × ℚ × ℤ),
      b.2.1 ≤ (findBestAux sim i matched j0 fs b).2.1 ∧
      (∀ k, k < fs.length → (((j0 + k : ℕ) : ℤ) ∉ matched) →
        sim i (j0 + k) ≤ (findBestAux sim i matched j0 fs b).2.1) ∧
      (findBestAux sim i matched j0 fs b = b ∨
        ∃ k, ∃ hk : k < fs.length, (((j0 + k : ℕ) : ℤ) ∉ matched) ∧
          findBestAux sim i matched j0 fs b =
            (some (fs.get ⟨k, hk⟩), sim i (j0 + k), ((j0 + k : ℕ) : ℤ)) ∧
          b.2.1 < sim i (j0 + k) ∧
          ∀ k2, k2 < k → (((j0 + k2 : ℕ) : ℤ) ∉ matched) →
            sim i (j0 + k2) < sim i (j0 + k)) := by
  intro fs
  induction fs with
  | nil =>
    intro j0 b
    exact ⟨le_refl _, fun k hk => absurd hk (Nat.not_lt_zero k), Or.inl rfl⟩
  | cons f rest ih =>
    intro j0 b
    rw [findBestAux_cons]
    by_cases hmem : (j0 : ℤ) ∈ matched
    · rw [if_pos hmem]
      obtain ⟨h1, h2, h3⟩ := ih (j0 + 1) b
      refine ⟨h1, ?_, ?_⟩
      · intro k hk hkm
        cases k with
        | zero => exact absurd hmem (by simpa using hkm)
        | succ k =>
          have e : j0 + (k + 1) = j0 + 1 + k := by omega
          rw [e] at hkm ⊢
          exact h2 k (by simpa using hk) hkm
      · rcases h3 with he | ⟨k, hk, hnm, heq, hlt, htie⟩
        · exact Or.inl he
        · have e : j0 + (k + 1) = j0 + 1 + k := by omega
          refine Or.inr ⟨k + 1, Nat.succ_lt_succ hk, ?_, ?_, ?_, ?_⟩
          · rw [e]; exact hnm
          · rw [e]; exact heq
          · rw [e]; exact hlt
          · intro k2 hk2 hk2m
            cases k2 with
            | zero => exact absurd hmem (by simpa using hk2m)
            | succ k2 =>
              have e2 : j0 + (k2 + 1) = j0 + 1 + k2 := by omega
              rw [e, e2]
              rw [e2] at hk2m
              exact htie k2 (by omega) hk2m
    · rw [if_neg hmem]
      by_cases hgt : sim i j0 > b.2.1
      · rw [if_pos hgt]
        obtain ⟨h1, h2, h3⟩ := ih (j0 + 1) (some f, sim i j0, (j0 : ℤ))
        refine ⟨le_trans (le_of_lt hgt) h1, ?_, ?_⟩
        · intro k hk hkm
          cases k with
          | zero => exact h1
          | succ k =>
            have e : j0 + (k + 1) = j0 + 1 + k := by omega
            rw [e] at hkm ⊢
            exact h2 k (by simpa using hk) hkm
        · rcases h3 with he | ⟨k, hk, hnm, heq, hlt, htie⟩
          · refine Or.inr ⟨0, Nat.succ_pos _, by simpa using hmem, ?_, hgt, ?_⟩
            · exact he
            · intro k2 hk2
              exact absurd hk2 (Nat.not_lt_zero k2)
          · have e : j0 + (k + 1) = j0 + 1 + k := by omega
            refine Or.inr ⟨k + 1, Nat.succ_lt_succ hk, ?_, ?_, ?_, ?_⟩
            · rw [e]; exact hnm
            · rw [e]; exact heq
            · rw [e]; exact lt_trans hgt hlt
            · intro k2 hk2 hk2m
              cases k2 with
              | zero =>
                rw [e]
                exact hlt
              | succ k2 =>
                have e2 : j0 + (k2 + 1) = j0 + 1 + k2 := by omega
                rw [e, e2]
                rw [e2] at hk2m
                exact htie k2 (by omega) hk2m
      · rw [if_neg hgt]
        have hle : sim i j0 ≤ b.2.1 := le_of_not_lt hgt
        obtain ⟨h1, h2, h3⟩ := ih (j0 + 1) b
        refine ⟨h1, ?_, ?_⟩
        · intro k hk hkm
          cases k with
          | zero => exact le_trans hle h1
          | succ k =>
            have e : j0 + (k + 1) = j0 + 1 + k := by omega
            rw [e] at hkm ⊢
            exact h2 k (by simpa using hk) hkm
        · rcases h3 with he | ⟨k, hk, hnm, heq, hlt, htie⟩
          · exact Or.inl he
          · have e : j0 + (k + 1) = j0 + 1 + k := by omega
            refine Or.inr ⟨k + 1, Nat.succ_lt_succ hk, ?_, ?_, ?_, ?_⟩
            · rw [e]; exact hnm
            · rw [e]; exact heq
            · rw [e]; exact hlt
            · intro k2 hk2 hk2m
              cases k2 with
              | zero =>
                rw [e]
                exact lt_of_le_of_lt hle hlt
              | succ k2 =>
                have e2 : j0 + (k2 + 1) = j0 + 1 + k2 := by omega
                rw [e, e2]
                rw [e2] at hk2m
                exact htie k2 (by omega) hk2m

/-- When the inner scan selects some existing feature, the selection is
the first-encountered unclaimed index achieving the maximum similarity,
and the selected score is positive. -/
theorem findBest_some_spec (sim : ℕ → ℕ → ℚ) (i : ℕ) (existing : List Feature)
    (matched : List ℤ) (f : Feature) (s : ℚ) (bi : ℤ)
    (h : findBest sim i existing matched = (some f, s, bi)) :
    ∃ k, ∃ hk : k < existing.length,
      bi = (k : ℤ) ∧ ((k : ℤ) ∉ matched) ∧ f = existing.get ⟨k, hk⟩ ∧
      s = sim i k ∧ 0 < s ∧
      (∀ j, j < existing.length → ((j : ℤ) ∉ matched) → sim i j ≤ s) ∧
      (∀ j, j < k → ((j : ℤ) ∉ matched) → sim i j < s) := by
  unfold findBest at h
  obtain ⟨h1, h2, h3⟩ := findBestAux_spec sim i matched existing 0 (none, 0, -1)
  simp only [Nat.zero_add] at h2 h3
  rcases h3 with he | ⟨k, hk, hnm, heq, hlt, htie⟩
  · rw [h] at he
    exact absurd he (by simp)
  · rw [h] at heq
    obtain ⟨hf, hs, hbi⟩ : some f = some (existing.get ⟨k, hk⟩) ∧ s = sim i k ∧
        bi = (k : ℤ) := by
      refine ⟨congrArg Prod.fst heq, ?_, ?_⟩
      · exact congrArg (fun p => p.2.1) heq
      · exact congrArg (fun p => p.2.2) heq
    refine ⟨k, hk, hbi, hnm, Option.some.inj hf, hs, ?_, ?_, ?_⟩
    · rw [hs]; exact hlt
    · intro j hj hjm
      have := h2 j hj hjm
      rw [h] at this
      exact this
    · intro j hj hjm
      rw [hs]
      exact htie j hj hjm

/-- If the inner scan never selects anything (its best match stays
`None`), it returns the initial accumulator unchanged. -/
theorem findBest_none (sim : ℕ → ℕ → ℚ) (i : ℕ) (existing : List Feature)
    (matched : List ℤ) (h : (findBest sim i existing matched).1 = none) :
    findBest sim i existing matched = (none, 0, -1) := by
  unfold findBest at h ⊢
  rcases (findBestAux_spec sim i matched existing 0 (none, 0, -1)).2.2 with
    he | ⟨k, hk, hnm, heq, hlt, htie⟩
  · exact he
  · rw [heq] at h
    exact absurd h (by simp)

/-- If every existing index is already claimed, the inner scan returns
its accumulator untouched. -/
theorem findBestAux_all_matched (sim : ℕ → ℕ → ℚ) (i : ℕ) (matched : List ℤ) :
    ∀ (fs : List Feature) (j0 : ℕ) (b : Option Feature × ℚ × ℤ),
      (∀ k, k < fs.length → (((j0 + k : ℕ) : ℤ) ∈ matched)) →
      findBestAux sim i matched j0 fs b = b := by
  intro fs
  induction fs with
  | nil => intro j0 b _; rfl
  | cons f rest ih =>
    intro j0 b h
    rw [findBestAux_cons]
    rw [if_pos (by simpa using h 0 (Nat.succ_pos _))]
    refine ih (j0 + 1) b ?_
    intro k hk
    have e : j0 + 1 + k = j0 + (k + 1) := by omega
    rw [e]
    exact h (k + 1) (Nat.succ_lt_succ hk)

/-- With the whole pool claimed (in particular with no existing items at
all), the inner scan yields the initial `(None, 0.0, -1)`. -/
theorem findBest_all_matched (sim : ℕ → ℕ → ℚ) (i : ℕ) (existing : List Feature)
    (matched : List ℤ) (h : ∀ j, j < existing.length → (j : ℤ) ∈ matched) :
    findBest sim i existing matched = (none, 0, -1) := by
  unfold findBest
  refine findBestAux_all_matched sim i matched existing 0 _ ?_
  intro k hk
  simpa using h k hk

/-- The outer loop with the debug-logging effect either raises or
returns exactly the value of the logging-free loop: the two models
agree on every completing run. -/
theorem compareLoopE_dichotomy (sim : ℕ → ℕ → ℚ)
    (gap : Feature → Option Feature → String) (exactT similarT : ℚ)
    (existing : List Feature) :
    ∀ (rest : List Feature) (i : ℕ) (matched : List ℤ),
      (∃ e, compareLoopE sim gap exactT similarT existing i rest matched =
        Except.error e) ∨
      compareLoopE sim gap exactT similarT existing i rest matched =
        Except.ok (compareLoop sim gap exactT similarT existing i rest matched) := by
  intro rest
  induction rest with
  | nil => intro i matched; exact Or.inr rfl
  | cons nf rest ih =>
    intro i matched
    rw [compareLoopE_cons, compareLoop_cons]
    by_cases h1 : (findBest sim i existing matched).2.1 ≥ exactT
    · rw [if_pos h1, if_pos h1]
      cases hb : (findBest sim i existing matched).1 with
      | none => exact Or.inl ⟨"AttributeError", rfl⟩
      | some fm =>
        rcases ih (i + 1) ((findBest sim i existing matched).2.2 :: matched) with
          ⟨e, herr⟩ | hok
        · rw [herr]; exact Or.inl ⟨e, rfl⟩
        · rw [hok]; exact Or.inr rfl
    · rw [if_neg h1, if_neg h1]
      by_cases h2 : (findBest sim i existing matched).2.1 ≥ similarT
      · rw [if_pos h2, if_pos h2]
        cases hb : (findBest sim i existing matched).1 with
        | none => exact Or.inl ⟨"AttributeError", rfl⟩
        | some fm =>
          rcases ih (i + 1) ((findBest sim i existing matched).2.2 :: matched) with
            ⟨e, herr⟩ | hok
          · rw [herr]; exact Or.inl ⟨e, rfl⟩
          · rw [hok]; exact Or.inr rfl
      · rw [if_neg h2, if_neg h2]
        rcases ih (i + 1) matched with ⟨e, herr⟩ | hok
        · rw [herr]; exact Or.inl ⟨e, rfl⟩
        · rw [hok]; exact Or.inr rfl

/-- With positive thresholds, a selected score is positive, so the best
match is never `None` in the exact/similar branches: the debug logging
cannot raise, the run always completes, and its value is that of the
logging-free loop. -/
theorem compareLoopE_pos (sim : ℕ → ℕ → ℚ)
    (gap : Feature → Option Feature → String) (exactT similarT : ℚ)
    (existing : List Feature) (hpos : 0 < similarT) (hts : similarT ≤ exactT) :
    ∀ (rest : List Feature) (i : ℕ) (matched : List ℤ),
      compareLoopE sim gap exactT similarT existing i rest matched =
        Except.ok (compareLoop sim gap exactT similarT existing i rest matched) := by
  intro rest
  induction rest with
  | nil => intro i matched; rfl
  | cons nf rest ih =>
    intro i matched
    rw [compareLoopE_cons, compareLoop_cons]
    by_cases h1 : (findBest sim i existing matched).2.1 ≥ exactT
    · rw [if_pos h1, if_pos h1]
      cases hb : (findBest sim i existing matched).1 with
      | none =>
        have htup := findBest_none sim i existing matched hb
        rw [htup] at h1
        exact absurd (le_trans hts h1) (by simpa using not_le.mpr hpos)
      | some fm =>
        rw [ih (i + 1) ((findBest sim i existing matched).2.2 :: matched)]
    · rw [if_neg h1, if_neg h1]
      by_cases h2 : (findBest sim i existing matched).2.1 ≥ similarT
      · rw [if_pos h2, if_pos h2]
        cases hb : (findBest sim i existing matched).1 with
        | none =>
          have htup := findBest_none sim i existing matched hb
          rw [htup] at h2
          exact absurd h2 (by simpa using not_le.mpr hpos)
        | some fm =>
          rw [ih (i + 1) ((findBest sim i existing matched).2.2 :: matched)]
      · rw [if_neg h2, if_neg h2]
        rw [ih (i + 1) matched]

/-- Claim C3, counterexample to the claim as stated: the quantification
over all thresholds with `similar_threshold <= exact_threshold`
includes `similar = 0 <= exact = 1`, where a new item facing an empty
existing pool enters the similar branch with a `None` best match and
the debug logging raises `AttributeError` — the call aborts and no new
item is placed in any of the three output sequences (there are no
output sequences at all). -/
theorem claim_c3_counterexample :
    compare_featuresE (fun _ _ => 0) (fun _ _ => "") 1 0 [featNew1] [] =
      Except.error ("AttributeError") := by
  decide

/-- Claim C3 as amended: with `similar_threshold <= exact_threshold`, on
every run of the matcher that completes (returns rather than raising
the debug-logging `AttributeError`, which is the only exception path
and needs a threshold of 0 to be reachable), every new item is placed
in exactly one of the three output sequences — the new items across the
exact pairs, similar pairs and delta list are a permutation of the
input — and the three output lengths sum to the number of new items. -/
theorem claim_c3_partition (sim : ℕ → ℕ → ℚ) (gap : Feature → Option Feature → String)
    (exactT similarT : ℚ) (newFeatures existing : List Feature)
    (r : List MatchPair × List MatchPair × List Feature)
    (hts : similarT ≤ exactT)
    (hok : compare_featuresE sim gap exactT similarT newFeatures existing =
      Except.ok r) :
    (r.1.map MatchPair.new_feature ++ r.2.1.map MatchPair.new_feature ++
      r.2.2).Perm newFeatures ∧
    r.1.length + r.2.1.length + r.2.2.length = newFeatures.length := by
  have hpure : compare_features sim gap exactT similarT newFeatures existing = r := by
    simp only [compare_featuresE] at hok
    rcases compareLoopE_dichotomy sim gap exactT similarT existing newFeatures 0 [] with
      ⟨e, herr⟩ | heq
    · rw [herr] at hok
      exact absurd hok (by simp)
    · rw [heq] at hok
      exact Except.ok.inj hok
  rw [← hpure]
  have hp := compareLoop_perm sim gap exactT similarT existing newFeatures 0 []
  refine ⟨hp, ?_⟩
  have hl := hp.length_eq
  simp only [List.length_append, List.length_map] at hl
  simp only [compare_features]
  omega

/-- Witness for claim C3 at a concrete completing run: a similar match
plus a delta out of two new items. -/
theorem claim_c3_partition_witness :
    ((1 : ℚ) ≤ 2) ∧
    compare_featuresE (fun _ _ => 1) (fun _ _ => "") 2 1 [featNew1, featNew2] [featEx1] =
      Except.ok ([], [⟨featNew1, some featEx1, 1, "similar", some ""⟩], [featNew2]) ∧
    ((([] : List MatchPair).map MatchPair.new_feature ++
      [(⟨featNew1, some featEx1, 1, "similar", some ""⟩ : MatchPair)].map
        MatchPair.new_feature ++
      [featNew2]).Perm [featNew1, featNew2] ∧
     ([] : List MatchPair).length +
       [(⟨featNew1, some featEx1, 1, "similar", some ""⟩ : MatchPair)].length +
       [featNew2].length = [featNew1, featNew2].length) :=
  ⟨by norm_num, by decide,
   claim_c3_partition (fun _ _ => 1) (fun _ _ => "") 2 1 [featNew1, featNew2] [featEx1]
     ([], [⟨featNew1, some featEx1, 1, "similar", some ""⟩], [featNew2])
     (by norm_num) (by decide)⟩

/-- Claim C4: the assignment is greedy in input order (the outer loop
walks the new features in their original sequence), and whenever the
inner scan for a new feature `i` selects an existing feature, the
selection is exactly the first-encountered unclaimed existing feature
achieving the maximum similarity: the selected index is unclaimed and
in range, its score is the maximum over all unclaimed indices, and
every unclaimed index before it scores strictly below it (the strict
`>` update means an equal later score never displaces an earlier
one). -/
theorem claim_c4_greedy_first_max (sim : ℕ → ℕ → ℚ) (i : ℕ)
    (existing : List Feature) (matched : List ℤ) (f : Feature) (s : ℚ) (bi : ℤ)
    (h : findBest sim i existing matched = (some f, s, bi)) :
    ∃ k, ∃ hk : k < existing.length,
      bi = (k : ℤ) ∧ ((k : ℤ) ∉ matched) ∧ f = existing.get ⟨k, hk⟩ ∧
      s = sim i k ∧ 0 < s ∧
      (∀ j, j < existing.length → ((j : ℤ) ∉ matched) → sim i j ≤ s) ∧
      (∀ j, j < k → ((j : ℤ) ∉ matched) → sim i j < s) :=
  findBest_some_spec sim i existing matched f s bi h

/-- Witness for claim C4 with a two-element pool scoring a perfect tie
(similarity 1 on both sides): the scan must have selected index 0, the
first of the tied maxima. -/
theorem claim_c4_greedy_first_max_witness :
    ∃ k, ∃ hk : k < [featEx1, featEx2].length,
      (0 : ℤ) = (k : ℤ) ∧ ((k : ℤ) ∉ ([] : List ℤ)) ∧
      featEx1 = [featEx1, featEx2].get ⟨k, hk⟩ ∧
      (1 : ℚ) = (fun _ _ => (1 : ℚ)) 0 k ∧ (0 : ℚ) < 1 ∧
      (∀ j, j < [featEx1, featEx2].length → ((j : ℤ) ∉ ([] : List ℤ)) →
        (fun _ _ => (1 : ℚ)) 0 j ≤ 1) ∧
      (∀ j, j < k → ((j : ℤ) ∉ ([] : List ℤ)) → (fun _ _ => (1 : ℚ)) 0 j < 1) :=
  claim_c4_greedy_first_max (fun _ _ => (1 : ℚ)) 0 [featEx1, featEx2] [] featEx1 1 0
    (by decide)

/-- Claim C1, counterexample to the claim as stated: with the thresholds
both 0 (the configuration range `[0,1]` with
`similar_threshold <= exact_threshold` allows this) and an empty
existing sequence, the best score stays at its initial `0.0`, the test
`best_score >= exact_threshold` succeeds with `best_match` still
`None`, and after appending the pair the debug-logging f-string
dereferences `best_match.title` and raises an uncaught
`AttributeError`: the call aborts.  So "when no existing items remain
unclaimed the new item is classified delta, never exact or similar"
fails at this input — the item is not classified delta; nothing is
classified, the run crashes. -/
theorem claim_c1_counterexample :
    compare_featuresE (fun _ _ => 0) (fun _ _ => "") 0 0 [featNew1] [] =
      Except.error ("AttributeError") := by
  decide

/-- Claim C1 as amended: for positive thresholds with
`0 < similar_threshold <= exact_threshold` (the defaults 0.95/0.70
included), a selected score is positive, so the best match is never
`None` where the debug logging dereferences it: the call completes
(returning the value of the logging-free loop) and the three-way
classification is exactly as claimed — writing `s` for the best score
of the inner scan: `s >= exact_threshold` emits an exact pair and
claims the selected existing item (which really is some unclaimed
item); `similar_threshold <= s < exact_threshold` emits a similar pair
with a gap analysis and claims the item; `s < similar_threshold` emits
the new item as a delta and leaves the claimed set untouched; and when
every existing index is already claimed (including the empty existing
sequence) the new item is a delta.  Only when the thresholds can be `0`
does the behaviour of the counterexample (an uncaught `AttributeError`
from the null best match) appear. -/
theorem claim_c1_classification (sim : ℕ → ℕ → ℚ)
    (gap : Feature → Option Feature → String) (exactT similarT : ℚ)
    (existing : List Feature) (i : ℕ) (nf : Feature) (rest : List Feature)
    (matched : List ℤ) (hpos : 0 < similarT) (hts : similarT ≤ exactT) :
    (compareLoopE sim gap exactT similarT existing i (nf :: rest) matched =
      Except.ok (compareLoop sim gap exactT similarT existing i (nf :: rest) matched)) ∧
    ((findBest sim i existing matched).2.1 ≥ exactT →
      compareLoop sim gap exactT similarT existing i (nf :: rest) matched =
        (⟨nf, (findBest sim i existing matched).1, (findBest sim i existing matched).2.1,
           "exact", none⟩ ::
          (compareLoop sim gap exactT similarT existing (i + 1) rest
            ((findBest sim i existing matched).2.2 :: matched)).1,
         (compareLoop sim gap exactT similarT existing (i + 1) rest
           ((findBest sim i existing matched).2.2 :: matched)).2.1,
         (compareLoop sim gap exactT similarT existing (i + 1) rest
           ((findBest sim i existing matched).2.2 :: matched)).2.2) ∧
      ∃ fm, (findBest sim i existing matched).1 = some fm ∧
        (findBest sim i existing matched).2.2 ∉ matched) ∧
    (similarT ≤ (findBest sim i existing matched).2.1 →
      (findBest sim i existing matched).2.1 < exactT →
      compareLoop sim gap exactT similarT existing i (nf :: rest) matched =
        ((compareLoop sim gap exactT similarT existing (i + 1) rest
           ((findBest sim i existing matched).2.2 :: matched)).1,
         ⟨nf, (findBest sim i existing matched).1, (findBest sim i existing matched).2.1,
           "similar", some (gap nf (findBest sim i existing matched).1)⟩ ::
          (compareLoop sim gap exactT similarT existing (i + 1) rest
            ((findBest sim i existing matched).2.2 :: matched)).2.1,
         (compareLoop sim gap exactT similarT existing (i + 1) rest
           ((findBest sim i existing matched).2.2 :: matched)).2.2) ∧
      ∃ fm, (findBest sim i existing matched).1 = some fm ∧
        (findBest sim i existing matched).2.2 ∉ matched) ∧
    ((findBest sim i existing matched).2.1 < similarT →
      compareLoop sim gap exactT similarT existing i (nf :: rest) matched =
        ((compareLoop sim gap exactT similarT existing (i + 1) rest matched).1,
         (compareLoop sim gap exactT similarT existing (i + 1) rest matched).2.1,
         nf :: (compareLoop sim gap exactT similarT existing (i + 1) rest matched).2.2)) ∧
    ((∀ j, j < existing.length → (j : ℤ) ∈ matched) →
      compareLoop sim gap exactT similarT existing i (nf :: rest) matched =
        ((compareLoop sim gap exactT similarT existing (i + 1) rest matched).1,
         (compareLoop sim gap exactT similarT existing (i + 1) rest matched).2.1,
         nf :: (compareLoop sim gap exactT similarT existing (i + 1) rest matched).2.2)) := by
  have hsome : similarT ≤ (findBest sim i existing matched).2.1 →
      ∃ fm, (findBest sim i existing matched).1 = some fm ∧
        (findBest sim i existing matched).2.2 ∉ matched := by
    intro hs
    cases hb : (findBest sim i existing matched).1 with
    | none =>
      have htup := findBest_none sim i existing matched hb
      rw [htup] at hs
      exact absurd hs (by simpa using not_le.mpr hpos)
    | some fm =>
      have htup : findBest sim i existing matched =
          (some fm, (findBest sim i existing matched).2.1,
            (findBest sim i existing matched).2.2) := by
        rw [← hb]
      obtain ⟨k, hk, hbi, hknm, -, -, -, -, -⟩ :=
        findBest_some_spec sim i existing matched fm
          (findBest sim i existing matched).2.1
          (findBest sim i existing matched).2.2 htup
      exact ⟨fm, rfl, by rw [hbi]; exact hknm⟩
  refine ⟨compareLoopE_pos sim gap exactT similarT existing hpos hts (nf :: rest) i matched,
    ?_, ?_, ?_, ?_⟩
  · intro h1
    refine ⟨?_, hsome (le_trans hts h1)⟩
    rw [compareLoop_cons, if_pos h1]
  · intro h2 h3
    refine ⟨?_, hsome h2⟩
    rw [compareLoop_cons, if_neg (not_le.mpr h3), if_pos h2]
  · intro h4
    rw [compareLoop_cons, if_neg (not_le.mpr (lt_of_lt_of_le h4 hts)),
      if_neg (not_le.mpr h4)]
  · intro hall
    have hfb := findBest_all_matched sim i existing matched hall
    rw [compareLoop_cons, hfb,
      if_neg (show ¬(((none : Option Feature), (0 : ℚ), (-1 : ℤ)).2.1 ≥ exactT) from
        not_le.mpr (lt_of_lt_of_le hpos hts)),
      if_neg (show ¬(((none : Option Feature), (0 : ℚ), (-1 : ℤ)).2.1 ≥ similarT) from
        not_le.mpr hpos)]

/-- Witness for claim C1 at positive thresholds `similar = 1`,
`exact = 2` and an empty existing sequence: the run completes and the
single new item is a delta. -/
theorem claim_c1_classification_witness :
    (0 : ℚ) < 1 ∧ (1 : ℚ) ≤ 2 ∧
    compareLoopE (fun _ _ => 1) (fun _ _ => "") 2 1 [] 0 [featNew1] [] =
      Except.ok (compareLoop (fun _ _ => 1) (fun _ _ => "") 2 1 [] 0 [featNew1] []) ∧
    compareLoop (fun _ _ => 1) (fun _ _ => "") 2 1 [] 0 [featNew1] [] =
      ((compareLoop (fun _ _ => 1) (fun _ _ => "") 2 1 [] (0 + 1) [] []).1,
       (compareLoop (fun _ _ => 1) (fun _ _ => "") 2 1 [] (0 + 1) [] []).2.1,
       featNew1 :: (compareLoop (fun _ _ => 1) (fun _ _ => "") 2 1 [] (0 + 1) [] []).2.2) :=
  ⟨by norm_num, by norm_num,
   (claim_c1_classification (fun _ _ => 1) (fun _ _ => "") 2 1 [] 0 featNew1 [] []
      (by norm_num) (by norm_num)).1,
   (claim_c1_classification (fun _ _ => 1) (fun _ _ => "") 2 1 [] 0 featNew1 [] []
      (by norm_num) (by norm_num)).2.2.2.2
     (fun j hj => absurd hj (Nat.not_lt_zero j))⟩

/-- With nothing claimed, the available pool is the whole existing
sequence. -/
theorem availAux_nil_matched : ∀ (fs : List Feature) (j0 : ℕ),
    availAux [] j0 fs = fs := by
  intro fs
  induction fs with
  | nil => intro j0; rfl
  | cons f rest ih => intro j0; simp [availAux, ih]

/-- Claiming an index below the scan window (such as the sentinel `-1`)
does not change the available pool. -/
theorem availAux_cons_lt (matched : List ℤ) (k : ℤ) :
    ∀ (fs : List Feature) (j0 : ℕ), k < (j0 : ℤ) →
      availAux (k :: matched) j0 fs = availAux matched j0 fs := by
  intro fs
  induction fs with
  | nil => intro j0 _; rfl
  | cons f rest ih =>
    intro j0 hk
    simp only [availAux]
    have hne : ((j0 : ℤ) ∈ k :: matched) ↔ ((j0 : ℤ) ∈ matched) := by
      simp only [List.mem_cons]
      constructor
      · rintro (h | h)
        · exact absurd h (ne_of_gt hk)
        · exact h
      · exact Or.inr
    by_cases hm : (j0 : ℤ) ∈ matched
    · rw [if_pos (hne.mpr hm), if_pos hm, ih (j0 + 1) (by push_cast; omega)]
    · rw [if_neg (fun hc => hm (hne.mp hc)), if_neg hm, ih (j0 + 1) (by push_cast; omega)]

/-- Claiming the unclaimed index `j0 + k0` removes exactly the feature at
that index from the available pool, up to permutation. -/
theorem availAux_perm_extract (matched : List ℤ) :
    ∀ (fs : List Feature) (j0 k0 : ℕ) (hk : k0 < fs.length),
      (((j0 + k0 : ℕ) : ℤ) ∉ matched) →
      (availAux matched j0 fs).Perm
        (fs.get ⟨k0, hk⟩ :: availAux (((j0 + k0 : ℕ) : ℤ) :: matched) j0 fs) := by
  intro fs
  induction fs with
  | nil => intro j0 k0 hk; exact absurd hk (Nat.not_lt_zero k0)
  | cons f rest ih =>
    intro j0 k0 hk hnm
    cases k0 with
    | zero =>
      show (availAux matched j0 (f :: rest)).Perm
        (f :: availAux ((j0 : ℤ) :: matched) j0 (f :: rest))
      simp only [availAux]
      rw [if_neg (by simpa using hnm), if_pos (List.mem_cons_self _ _),
        availAux_cons_lt matched (j0 : ℤ) rest (j0 + 1) (by push_cast; omega)]
    | succ k0 =>
      have e : j0 + (k0 + 1) = j0 + 1 + k0 := by omega
      rw [e] at hnm
      rw [e]
      simp only [availAux]
      by_cases hm : (j0 : ℤ) ∈ matched
      · rw [if_pos hm, if_pos (List.mem_cons_of_mem _ hm)]
        exact ih (j0 + 1) k0 (Nat.lt_of_succ_lt_succ hk) hnm
      · have hm2 : (j0 : ℤ) ∉ (((j0 + 1 + k0 : ℕ) : ℤ) :: matched) := by
          simp only [List.mem_cons]
          rintro (h | h)
          · push_cast at h; omega
          · exact hm h
        rw [if_neg hm, if_neg hm2]
        exact ((ih (j0 + 1) k0 (Nat.lt_of_succ_lt_succ hk) hnm).cons f).trans
          (List.Perm.swap _ _ _)

/-- Invariant of the outer loop: the existing features appearing as
matched items across the exact and similar outputs form a
sub-permutation of the still-available pool — no occurrence is ever
used twice. -/
theorem compareLoop_claimed_subperm (sim : ℕ → ℕ → ℚ)
    (gap : Feature → Option Feature → String) (exactT similarT : ℚ)
    (existing : List Feature) :
    ∀ (rest : List Feature) (i : ℕ) (matched : List ℤ),
      (((compareLoop sim gap exactT similarT existing i rest matched).1 ++
        (compareLoop sim gap exactT similarT existing i rest matched).2.1).filterMap
          MatchPair.existing_feature).Subperm (availAux matched 0 existing) := by
  intro rest
  induction rest with
  | nil => intro i matched; simp [compareLoop]
  | cons nf rest ih =>
    intro i matched
    rw [compareLoop_cons]
    by_cases h1 : (findBest sim i existing matched).2.1 ≥ exactT
    · rw [if_pos h1]
      dsimp only
      cases hb : (findBest sim i existing matched).1 with
      | none =>
        have htup := findBest_none sim i existing matched hb
        simp only [List.cons_append, List.filterMap_cons, hb, htup]
        have h := ih (i + 1) ((-1 : ℤ) :: matched)
        rwa [availAux_cons_lt matched (-1) existing 0 (by norm_num)] at h
      | some fm =>
        have htup : findBest sim i existing matched =
            (some fm, (findBest sim i existing matched).2.1,
              (findBest sim i existing matched).2.2) := by
          rw [← hb]
        obtain ⟨k, hk, hbi, hknm, hfm, -, -, -, -⟩ :=
          findBest_some_spec sim i existing matched fm
            (findBest sim i existing matched).2.1
            (findBest sim i existing matched).2.2 htup
        simp only [List.cons_append, List.filterMap_cons, hb, hbi]
        have hperm := availAux_perm_extract matched existing 0 k hk (by simpa using hknm)
        simp only [Nat.zero_add] at hperm
        rw [← hfm] at hperm
        exact ((List.subperm_cons fm).mpr (ih (i + 1) ((k : ℤ) :: matched))).trans
          hperm.symm.subperm
    · rw [if_neg h1]
      by_cases h2 : (findBest sim i existing matched).2.1 ≥ similarT
      · rw [if_pos h2]
        dsimp only
        cases hb : (findBest sim i existing matched).1 with
        | none =>
          have htup := findBest_none sim i existing matched hb
          simp only [List.filterMap_append, List.filterMap_cons, hb, htup]
          rw [← List.filterMap_append]
          have h := ih (i + 1) ((-1 : ℤ) :: matched)
          rwa [availAux_cons_lt matched (-1) existing 0 (by norm_num)] at h
        | some fm =>
          have htup : findBest sim i existing matched =
              (some fm, (findBest sim i existing matched).2.1,
                (findBest sim i existing matched).2.2) := by
            rw [← hb]
          obtain ⟨k, hk, hbi, hknm, hfm, -, -, -, -⟩ :=
            findBest_some_spec sim i existing matched fm
              (findBest sim i existing matched).2.1
              (findBest sim i existing matched).2.2 htup
          simp only [List.filterMap_append, List.filterMap_cons, hb, hbi]
          have hperm := availAux_perm_extract matched existing 0 k hk (by simpa using hknm)
          simp only [Nat.zero_add] at hperm
          rw [← hfm] at hperm
          refine (List.perm_middle.subperm).trans ?_
          refine ((List.subperm_cons fm).mpr ?_).trans hperm.symm.subperm
          rw [← List.filterMap_append]
          exact ih (i + 1) ((k : ℤ) :: matched)
      · rw [if_neg h2]
        dsimp only
        exact ih (i + 1) matched

/-- Claim C2: across one whole run of `compare_features`, each existing
item is claimed at most once — the matched items of the exact and
similar outputs (with multiplicity) form a sub-permutation of the
existing sequence, so once claimed by an earlier new item an existing
item cannot be matched to a later one. -/
theorem claim_c2_no_double_claim (sim : ℕ → ℕ → ℚ)
    (gap : Feature → Option Feature → String) (exactT similarT : ℚ)
    (newFeatures existing : List Feature) :
    (((compare_features sim gap exactT similarT newFeatures existing).1 ++
      (compare_features sim gap exactT similarT newFeatures existing).2.1).filterMap
        MatchPair.existing_feature).Subperm existing := by
  have h := compareLoop_claimed_subperm sim gap exactT similarT existing newFeatures 0 []
  rwa [availAux_nil_matched] at h

end BssComparison
